import Mathlib

/-!
Verification development for the AEGIS governance decision core.

The definitions below are a shallow embedding of the AEGIS sources:

* `PolicyEvaluator.evaluate` embeds `backend/src/aegis/policy/engine.py`
  exactly as printed in the repository's implementation document
  (the only place the evaluator's code appears), and `intentsYaml`
  embeds `backend/src/aegis/policy/intents.yaml`.
* `PolicyEvaluatorV2.evaluate` embeds the `PolicyEvaluatorV2` class of the
  v2 roadmap document, including its wildcard/namespace matching.
* `DLPScanner` and `EnhancedDLPScanner` embed the two scanner classes
  (regex finditer loop with redaction; entropy token scan with its own
  redaction).  Python floats (the Shannon-entropy threshold test) are not
  shallowly embeddable, so the entropy test is a Boolean parameter; the
  structure of the scan and both redaction functions are taken verbatim
  from the source.
* The Trust & Isolation tracker, governance commands (purge / restore /
  confirm-breach) and the audit ledger are code of this repository that is
  not present under the sources given here (only documentation and the
  frontend callers are); those definitions are modelled from the spec and
  are marked `Modelled from the spec:` in their doc comments.

Strings from the Python code are modelled as `String` (or `List Char`
where character-level manipulation matters), Python floats used for trust
scores and confidences as `ℚ`.
-/

namespace Aegis

/-! ### Policy evaluator data model (engine.py / intents.yaml) -/

inductive RiskLevel
  | LOW | MEDIUM | HIGH | CRITICAL
deriving DecidableEq, Fintype

inductive DecisionKind
  | ALLOW | DENY | ESCALATE
deriving DecidableEq, Fintype

/-- The `{"decision": ..., "reason": ...}` dict returned by `evaluate`. -/
structure Decision where
  decision : DecisionKind
  reason : String
deriving DecidableEq

/-- One entry of the `intents:` list of `intents.yaml`. -/
structure IntentDef where
  name : String
  requiredFields : List String
  riskLevel : RiskLevel
deriving DecidableEq

/-- One entry of `constraints.environment_defaults` in `intents.yaml`. -/
structure EnvDefaults where
  humanApprovalRequired : Bool
  maxRisk : RiskLevel
deriving DecidableEq

/-- The `constraints:` section of `intents.yaml`. -/
structure Constraints where
  confidenceThreshold : ℚ
  environmentDefaults : List (String × EnvDefaults)
deriving DecidableEq

/-- The parsed `intents.yaml` taxonomy loaded by `PolicyEvaluator.__init__`. -/
structure Taxonomy where
  intents : List IntentDef
  constraints : Constraints
deriving DecidableEq

/-- The `context` dict passed to `evaluate`.  `confidence` is `Option`
because the Python code reads it with `.get("confidence", 0.0)`.
`suppliedFields` are the field names present on the submitted intent;
the Python `evaluate` never reads them (see the C3 analysis). -/
structure EvalContext where
  intentName : String
  confidence : Option ℚ
  environment : String
  suppliedFields : List String
deriving DecidableEq

/-- `next((i for i in self.taxonomy['intents'] if i['name'] == intent_name), None)` -/
def findIntentDef (t : Taxonomy) (n : String) : Option IntentDef :=
  t.intents.find? (fun i => i.name == n)

/-- `constraints['environment_defaults'].get(environment, {})`; the empty
dict makes `env_defaults.get("human_approval_required")` falsy, which the
default `⟨false, _⟩` reproduces (`maxRisk` is never read by the code). -/
def envLookup (t : Taxonomy) (env : String) : EnvDefaults :=
  (t.constraints.environmentDefaults.lookup env).getD ⟨false, RiskLevel.LOW⟩

/-- `PolicyEvaluator.evaluate` from `backend/src/aegis/policy/engine.py`,
translated clause for clause: unknown-intent check, confidence check,
human-approval escalation, production-CRITICAL denial, default ALLOW. -/
def PolicyEvaluator.evaluate (t : Taxonomy) (ctx : EvalContext) : Decision :=
  let confidence := ctx.confidence.getD 0
  match findIntentDef t ctx.intentName with
  | none => ⟨DecisionKind.DENY, "Unknown intent: " ++ ctx.intentName⟩
  | some intentDef =>
      let envDefaults := envLookup t ctx.environment
      if confidence < t.constraints.confidenceThreshold then
        ⟨DecisionKind.DENY, "Confidence too low"⟩
      else if envDefaults.humanApprovalRequired &&
          (intentDef.riskLevel == RiskLevel.HIGH || intentDef.riskLevel == RiskLevel.CRITICAL) then
        ⟨DecisionKind.ESCALATE, "Human approval required for high risk in production"⟩
      else if ctx.environment == "production" && intentDef.riskLevel == RiskLevel.CRITICAL then
        ⟨DecisionKind.DENY, "Critical actions blocked in production by default"⟩
      else
        ⟨DecisionKind.ALLOW, "Policy requirements met"⟩

/-- The rule table of `backend/src/aegis/policy/intents.yaml`. -/
def intentsYaml : Taxonomy :=
  { intents :=
      [ ⟨"MODIFY_RESOURCE", ["target", "action_type", "change_size"], RiskLevel.HIGH⟩
      , ⟨"DELETE_RESOURCE", ["target", "reasoning_hash"], RiskLevel.CRITICAL⟩
      , ⟨"READ_PII", ["data_source", "justification"], RiskLevel.MEDIUM⟩
      , ⟨"SEND_EXTERNAL_REQUEST", ["url", "method", "payload_sample"], RiskLevel.MEDIUM⟩ ]
  , constraints :=
      { confidenceThreshold := mkRat 9 10
      , environmentDefaults :=
          [ ("production", ⟨true, RiskLevel.MEDIUM⟩)
          , ("staging", ⟨false, RiskLevel.HIGH⟩) ] } }

/-! ### PolicyEvaluatorV2 (v2 roadmap document, section 1) -/

/-- One entry of the enhanced `intents.yaml` of the v2 roadmap.  Only the
keys the v2 `evaluate` reads on the unknown-intent paths are kept;
`escalation_only` is read with `.get`, hence defaults to `false`. -/
structure RuleV2 where
  name : String
  allowed : Bool
  escalationOnly : Bool
deriving DecidableEq

/-- Matching of the regex that `_find_namespace_match` builds from a
wildcard pattern: every `'.'` is escaped to a literal and every `'*'`
becomes `.*`, anchored with `^...$`.  So the pattern matches the name as
a glob where `'*'` stands for any (possibly empty) character sequence and
every other character stands for itself. -/
def globMatchAux : ℕ → List Char → List Char → Bool
  | 0, _, _ => false
  | _ + 1, [], [] => true
  | _ + 1, [], _ :: _ => false
  | fuel + 1, c :: ps, [] => c == '*' && globMatchAux fuel ps []
  | fuel + 1, c :: ps, a :: restS =>
      if c == '*' then globMatchAux fuel ps (a :: restS) || globMatchAux fuel (c :: ps) restS
      else c == a && globMatchAux fuel ps restS

/-- Each recursive step of the matcher shrinks `p.length + s.length` by at
least one, so `p.length + s.length + 1` steps of fuel always suffice. -/
def globMatch (p s : List Char) : Bool :=
  globMatchAux (p.length + s.length + 1) p s

/-- `self._find_exact_intent(intent_name)`. -/
def findExactIntent (rules : List RuleV2) (n : String) : Option RuleV2 :=
  rules.find? (fun r => r.name == n)

/-- `self._find_namespace_match(intent_name)`: the first rule whose name
contains `'*'` and whose derived regex matches the intent name. -/
def findNamespaceMatch (rules : List RuleV2) (n : String) : Option RuleV2 :=
  rules.find? (fun r => r.name.data.contains '*' && globMatch r.name.data n.data)

/-- `PolicyEvaluatorV2.evaluate` from the v2 roadmap document.  The helper
`self._evaluate_intent` is not shown in the source, so it is a parameter
`evalIntent`; none of the unknown-intent paths reach it. -/
def PolicyEvaluatorV2.evaluate (rules : List RuleV2) (evalIntent : RuleV2 → Decision)
    (intentName environment : String) : Decision :=
  match findExactIntent rules intentName with
  | some r => evalIntent r
  | none =>
      match findNamespaceMatch rules intentName with
      | some r =>
          if r.escalationOnly then
            ⟨DecisionKind.ESCALATE,
              "Unknown intent " ++ intentName ++ " in namespace, requires review"⟩
          else evalIntent r
      | none =>
          if environment == "staging" || environment == "dev" then
            ⟨DecisionKind.ESCALATE, "Unknown intent in non-production, escalating for review"⟩
          else
            ⟨DecisionKind.DENY, "Unknown intent in production"⟩

/-- The enhanced `intents.yaml` table of the v2 roadmap document. -/
def intentsYamlV2 : List RuleV2 :=
  [ ⟨"READ.PII", true, false⟩
  , ⟨"READ.METADATA", true, false⟩
  , ⟨"READ.EXPERIMENTAL.*", false, true⟩
  , ⟨"WRITE.*", false, false⟩ ]

/-! ### Pattern Scanner (DLPScanner / EnhancedDLPScanner) -/

/-- Python's `\w` for the texts at hand: `[A-Za-z0-9_]`. -/
def isWordChar (c : Char) : Bool := c.isAlphanum || c == '_'

/-- A `{'type', 'position', 'redacted'}` finding of `DLPScanner.scan`.
The span is `match.span()`; the raw matched text is not a field. -/
structure Finding where
  ftype : String
  spanLo : ℕ
  spanHi : ℕ
  redacted : List Char
deriving DecidableEq

/-- `DLPScanner._redact`: `'***'` for matches of length ≤ 4, otherwise
`text[:2] + '*' * (len(text) - 4) + text[-2:]`. -/
def DLPScanner.redact (m : List Char) : List Char :=
  if m.length ≤ 4 then ['*', '*', '*']
  else m.take 2 ++ List.replicate (m.length - 4) '*' ++ m.drop (m.length - 2)

/-- Whether the SSN regex `\b\d{3}-\d{2}-\d{4}\b` matches at the head of
`l` (the leading `\b` is checked by the caller, which tracks whether the
preceding character is a word character). -/
def matchSSNAt : List Char → Bool
  | d1 :: d2 :: d3 :: h1 :: d4 :: d5 :: h2 :: d6 :: d7 :: d8 :: d9 :: rest =>
      d1.isDigit && d2.isDigit && d3.isDigit && h1 == '-' &&
      d4.isDigit && d5.isDigit && h2 == '-' &&
      d6.isDigit && d7.isDigit && d8.isDigit && d9.isDigit &&
      (match rest with | [] => true | c :: _ => !(isWordChar c))
  | _ => false

/-- The `re.finditer` loop of `DLPScanner.scan` for the `'ssn'` pattern:
left-to-right scanning that, on a match, emits
`{'type': 'ssn', 'position': match.span(), 'redacted': self._redact(match.group())}`
and continues after the match.  `fuel` only bounds the recursion; each
step consumes at least one character, so `l.length` fuel suffices. -/
def DLPScanner.ssnAux : ℕ → Bool → ℕ → List Char → List Finding
  | 0, _, _, _ => []
  | _ + 1, _, _, [] => []
  | fuel + 1, prevWord, pos, c :: cs =>
      if !prevWord && matchSSNAt (c :: cs) then
        ⟨"ssn", pos, pos + 11, DLPScanner.redact ((c :: cs).take 11)⟩
          :: DLPScanner.ssnAux fuel true (pos + 11) ((c :: cs).drop 11)
      else DLPScanner.ssnAux fuel (isWordChar c) (pos + 1) cs

/-- `DLPScanner.scan` restricted to the `'ssn'` entry of `PATTERNS`; the
other four patterns run through the identical finditer-and-redact
pipeline, differing only in the regex. -/
def DLPScanner.scanSSN (l : List Char) : List Finding :=
  DLPScanner.ssnAux l.length false 0 l

/-- A finding of `EnhancedDLPScanner._entropy_scan`
(`{'type', 'severity', 'description', 'token_length', 'redacted'}`; the
description holds only the numeric entropy, never the token). -/
structure EntropyFinding where
  ftype : String
  severity : String
  tokenLength : ℕ
  redacted : List Char
deriving DecidableEq

/-- `token[:4] + '...' + token[-4:]` — the redaction used by
`_entropy_scan`, which keeps four characters at each end. -/
def EnhancedDLPScanner.entropyRedact (t : List Char) : List Char :=
  t.take 4 ++ ['.', '.', '.'] ++ t.drop (t.length - 4)

/-- `re.findall(r'\b\w{20,}\b', text)` returns the maximal word-character
runs of length at least 20; `wordRunsAux` collects all maximal runs
(the length filter is applied by the caller).  Fuel as in `ssnAux`. -/
def wordRunsAux : ℕ → List Char → List (List Char)
  | 0, _ => []
  | _ + 1, [] => []
  | fuel + 1, c :: cs =>
      if isWordChar c then
        (c :: cs.takeWhile isWordChar) :: wordRunsAux fuel (cs.dropWhile isWordChar)
      else wordRunsAux fuel cs

def wordRuns (l : List Char) : List (List Char) :=
  wordRunsAux l.length l

/-- `EnhancedDLPScanner._entropy_scan`.  The Shannon-entropy threshold
test `entropy > 4.5` is a floating-point computation and is therefore a
Boolean parameter `isHigh`; everything else — tokenization, the length
bound 20, and the redacted form of each finding — follows the source. -/
def EnhancedDLPScanner.entropyScan (isHigh : List Char → Bool) (l : List Char) :
    List EntropyFinding :=
  ((wordRuns l).filter (fun t => decide (20 ≤ t.length) && isHigh t)).map
    (fun t => ⟨"high_entropy_token", "HIGH", t.length, EnhancedDLPScanner.entropyRedact t⟩)

/-! ### Trust & Isolation tracker and governance commands (spec §4.3, §4.5)

The backend modules implementing these (`governance/trust.py`,
`api/routers/governance.py`, `api/routers/investigation.py`) are code of
this repository that is not among the given sources — only the system
documentation and the frontend callers are.  The definitions below are
therefore modelled from the spec. -/

/-- Executable subtraction on `ℚ`; `ratSub_eq` identifies it with `-`. -/
def ratSub (a b : ℚ) : ℚ :=
  mkRat (a.num * (b.den : ℤ) - b.num * (a.den : ℤ)) (a.den * b.den)

/-- Modelled from the spec: trust is clamped to `[0, 100]` after every
update. -/
def clampTrust (t : ℚ) : ℚ :=
  if t < 0 then 0 else if 100 < t then 100 else t

/-- Modelled from the spec: `isolationLevel = floor(trust / 10)`.
Implemented on `num`/`den` so that it evaluates; `levelOf_cast` proves it
equal to `⌊t / 10⌋`. -/
def levelOf (t : ℚ) : ℕ :=
  (⌊mkRat t.num (10 * t.den)⌋).toNat

inductive Mode
  | FULL_ACCESS | REDUCED | ISOLATED
deriving DecidableEq, Fintype

inductive AgentStatus
  | ACTIVE | REVOKED
deriving DecidableEq, Fintype

/-- Modelled from the spec: `mode = FULL_ACCESS` if level ≥ 8, `REDUCED`
if 1 ≤ level ≤ 7, `ISOLATED` if level = 0. -/
def modeOf (l : ℕ) : Mode :=
  if 8 ≤ l then Mode.FULL_ACCESS else if 1 ≤ l then Mode.REDUCED else Mode.ISOLATED

inductive InvStatus
  | UNDER_INVESTIGATION | CONFIRMED | FALSE_POSITIVE | RESTORED
deriving DecidableEq, Fintype

/-- Modelled from the spec and the `BreachInvestigation` schema of the
system documentation: a forensic record keyed to an agent, carrying the
pre-revocation evidence snapshot. -/
structure Investigation where
  agentId : String
  breachType : String
  severity : String
  status : InvStatus
  previousTrust : ℚ
  previousStatus : AgentStatus
  previousLevel : ℕ
deriving DecidableEq

/-- Modelled from the spec: the agent record under governance.
`lastDeniedIntent` realizes the repeat-offense window ("a DENY following
an immediately prior DENY of the same intent"): it holds the intent of
the immediately preceding DENY and is cleared by an ALLOW. -/
structure Agent where
  id : String
  trust : ℚ
  isolationLevel : ℕ
  mode : Mode
  status : AgentStatus
  lastDeniedIntent : Option String
deriving DecidableEq

/-- A decision outcome fed to the tracker. -/
structure GovDecision where
  agentId : String
  intentName : String
  kind : DecisionKind
  risk : RiskLevel
deriving DecidableEq

/-- Modelled from the spec: penalty magnitudes and the repeat-offense
amplification are configuration constants (the project documentation
gives inconsistent magnitudes, from -10 to -30 per DENY plus larger
jumps for critical violations). -/
structure TrustConfig where
  penalty : RiskLevel → ℚ
  repeatAmplification : ℚ

/-- Modelled from the spec, §4.3 `apply(agent, decision)`:
ALLOW leaves trust unchanged (the spec's first option); DENY subtracts
`penalty(riskLevel)`, plus the amplification when the immediately prior
DENY hit the same intent; trust is clamped to `[0, 100]`; level and mode
are recomputed; crossing into level 0 revokes the agent. -/
def applyDecisionToAgent (cfg : TrustConfig) (d : GovDecision) (a : Agent) : Agent :=
  if a.id == d.agentId then
    match d.kind with
    | DecisionKind.ALLOW => { a with lastDeniedIntent := none }
    | DecisionKind.DENY =>
        let t1 := ratSub a.trust (cfg.penalty d.risk)
        let t2 := if a.lastDeniedIntent == some d.intentName
                  then ratSub t1 cfg.repeatAmplification else t1
        let t := clampTrust t2
        let l := levelOf t
        { id := a.id, trust := t, isolationLevel := l, mode := modeOf l
        , status := if l == 0 then AgentStatus.REVOKED else a.status
        , lastDeniedIntent := some d.intentName }
    | DecisionKind.ESCALATE => a
  else a

/-- Modelled from the spec: agents are created with trust 100, level 10,
FULL_ACCESS, ACTIVE. -/
def initAgent (id : String) : Agent :=
  ⟨id, 100, 10, Mode.FULL_ACCESS, AgentStatus.ACTIVE, none⟩

/-- The governed state: the agent table plus the investigation table,
most recent investigation first. -/
structure Fleet where
  agents : List Agent
  investigations : List Investigation
deriving DecidableEq

def initFleet (ids : List String) : Fleet :=
  ⟨ids.map initAgent, []⟩

/-- Modelled from the spec: `purge()` forces an agent to trust 0,
level 0, ISOLATED, REVOKED. -/
def purgeAgent (a : Agent) : Agent :=
  ⟨a.id, 0, 0, Mode.ISOLATED, AgentStatus.REVOKED, none⟩

/-- Modelled from the spec: the Investigation opened for each agent by
`purge()`, tagged "GLOBAL_SECURITY_INCIDENT", with the pre-purge
evidence snapshot. -/
def purgeInv (a : Agent) : Investigation :=
  ⟨a.id, "GLOBAL_SECURITY_INCIDENT", "CRITICAL", InvStatus.UNDER_INVESTIGATION,
    a.trust, a.status, a.isolationLevel⟩

/-- Modelled from the spec: `purge()` is one state transition over the
whole agent set — a single function of the fleet, not a per-agent
decision loop observable in intermediate states. -/
def purgeFleet (f : Fleet) : Fleet :=
  ⟨f.agents.map purgeAgent, (f.agents.map purgeInv) ++ f.investigations⟩

/-- The agent's current Investigation: the most recent one keyed to it. -/
def currentInvestigation (f : Fleet) (id : String) : Option Investigation :=
  f.investigations.find? (fun i => i.agentId == id)

/-- Replace the status of the agent's current (first, most recent)
Investigation. -/
def setCurrentInvStatus : List Investigation → String → InvStatus → List Investigation
  | [], _, _ => []
  | i :: rest, id, st =>
      if i.agentId == id then { i with status := st } :: rest
      else i :: setCurrentInvStatus rest id st

inductive GovernanceError
  | illegalTransition
deriving DecidableEq

/-- Modelled from the spec: the restored agent state — trust 100,
level 10, ACTIVE, FULL_ACCESS. -/
def restoredAgent (id : String) : Agent :=
  ⟨id, 100, 10, Mode.FULL_ACCESS, AgentStatus.ACTIVE, none⟩

/-- Whether the agent has an open (UNDER_INVESTIGATION) current
Investigation. -/
def hasOpenInvestigation (f : Fleet) (id : String) : Bool :=
  match currentInvestigation f id with
  | some inv => inv.status == InvStatus.UNDER_INVESTIGATION
  | none => false

/-- Modelled from the spec: `restore(agentId)` is legal only when the
agent's current Investigation has status UNDER_INVESTIGATION; it then
sets trust 100, level 10, ACTIVE, FULL_ACCESS and marks the
Investigation RESTORED; otherwise it fails with `IllegalTransitionError`
and mutates nothing. -/
def restoreE (f : Fleet) (id : String) : Except GovernanceError Fleet :=
  match currentInvestigation f id with
  | some inv =>
      if inv.status == InvStatus.UNDER_INVESTIGATION then
        Except.ok
          { agents := f.agents.map (fun a => if a.id == id then restoredAgent id else a)
          , investigations := setCurrentInvStatus f.investigations id InvStatus.RESTORED }
      else Except.error GovernanceError.illegalTransition
  | none => Except.error GovernanceError.illegalTransition

/-- Modelled from the spec: `confirmBreach(agentId)` marks the open
Investigation CONFIRMED; the agent stays REVOKED; illegal on a
non-open Investigation. -/
def confirmBreachE (f : Fleet) (id : String) : Except GovernanceError Fleet :=
  match currentInvestigation f id with
  | some inv =>
      if inv.status == InvStatus.UNDER_INVESTIGATION then
        Except.ok
          { f with investigations := setCurrentInvStatus f.investigations id InvStatus.CONFIRMED }
      else Except.error GovernanceError.illegalTransition
  | none => Except.error GovernanceError.illegalTransition

/-- The governance-core commands: per-agent decisions and the operator
commands. -/
inductive Command
  | applyDecision (d : GovDecision)
  | purge
  | restore (agentId : String)
  | confirmBreach (agentId : String)
deriving DecidableEq

/-- A decision applied to the fleet: every agent record runs through the
tracker (only the addressed one changes), and an Investigation is opened
exactly for agents that this decision pushes into REVOKED (the spec's
sole per-decision trigger). -/
def stepDecision (cfg : TrustConfig) (d : GovDecision) (f : Fleet) : Fleet :=
  { agents := f.agents.map (applyDecisionToAgent cfg d)
  , investigations :=
      ((f.agents.filter (fun a =>
          !(a.status == AgentStatus.REVOKED)
          && ((applyDecisionToAgent cfg d a).status == AgentStatus.REVOKED))).map
        (fun a => ⟨a.id, "TRUST_REVOCATION", "CRITICAL", InvStatus.UNDER_INVESTIGATION,
                   a.trust, a.status, a.isolationLevel⟩))
      ++ f.investigations }

/-- One governance-core transition.  A failed restore / confirm leaves
the state untouched. -/
def step (cfg : TrustConfig) (f : Fleet) : Command → Fleet
  | Command.applyDecision d => stepDecision cfg d f
  | Command.purge => purgeFleet f
  | Command.restore id =>
      match restoreE f id with
      | Except.ok f1 => f1
      | Except.error _ => f
  | Command.confirmBreach id =>
      match confirmBreachE f id with
      | Except.ok f1 => f1
      | Except.error _ => f

def run (cfg : TrustConfig) (f : Fleet) (cmds : List Command) : Fleet :=
  cmds.foldl (step cfg) f

/-- A concrete penalty schedule within the ranges the project
documentation gives (-10 to -30 per DENY, larger for critical
violations), strictly increasing with risk, amplification 20. -/
def cfg0 : TrustConfig :=
  ⟨fun r => match r with
    | RiskLevel.LOW => 10
    | RiskLevel.MEDIUM => 15
    | RiskLevel.HIGH => 25
    | RiskLevel.CRITICAL => 40, 20⟩

instance {e a : Type} [DecidableEq e] [DecidableEq a] : DecidableEq (Except e a) := fun x y =>
  match x, y with
  | Except.ok v, Except.ok w =>
      if h : v = w then isTrue (congrArg Except.ok h)
      else isFalse (fun hh => h (by injection hh))
  | Except.ok _, Except.error _ => isFalse (fun hh => Except.noConfusion hh)
  | Except.error _, Except.ok _ => isFalse (fun hh => Except.noConfusion hh)
  | Except.error v, Except.error w =>
      if h : v = w then isTrue (congrArg Except.error h)
      else isFalse (fun hh => h (by injection hh))

/-- Modelled from the spec: the per-agent well-formedness C4 asserts
after every transition — trust in `[0, 100]`, the level derived by
`floor(trust / 10)`, the mode derived from the level. -/
def AgentWF (a : Agent) : Prop :=
  0 ≤ a.trust ∧ a.trust ≤ 100
  ∧ a.isolationLevel = levelOf a.trust
  ∧ a.mode = modeOf a.isolationLevel

/-- `AgentWF` plus the revocation invariant C5 is about. -/
def AgentInv (a : Agent) : Prop :=
  AgentWF a ∧ (a.status = AgentStatus.REVOKED ↔ a.isolationLevel = 0)

/-! ### Audit Ledger (spec §4.4)

`audit/ledger.py` is likewise absent from the given sources; the README
documents the scheme: hash-chained entries with
`current_hash = SHA-256(prev_hash ‖ data)` over the canonical
serialization of the entry content.  Modelled from the spec with the
hash as a function parameter `H` over byte lists (`List ℕ`); the
collision-freedom the scheme relies on is the hypothesis
`Function.Injective H`. -/

/-- One stored ledger row: the canonical serialization of the entry
content (agent id, intent, decision, reason, timestamp, sequence number)
plus the two hash columns. -/
structure LedgerEntry where
  content : List ℕ
  prevHash : List ℕ
  currentHash : List ℕ
deriving DecidableEq

/-- The hash the next append must link from: the last entry's
`currentHash`, or the fixed genesis hash for an empty chain. -/
def lastHash (genesis : List ℕ) (chain : List LedgerEntry) : List ℕ :=
  match chain.getLast? with
  | some e => e.currentHash
  | none => genesis

/-- Modelled from the spec: `append` computes
`currentHash = H(prevHash ‖ serialization)` from the immediately
preceding entry's `currentHash` and appends the completed entry. -/
def ledgerAppend (H : List ℕ → List ℕ) (genesis : List ℕ)
    (chain : List LedgerEntry) (content : List ℕ) : List LedgerEntry :=
  chain ++ [⟨content, lastHash genesis chain, H (lastHash genesis chain ++ content)⟩]

/-- A chain built from genesis by iterated appends. -/
def buildChain (H : List ℕ → List ℕ) (genesis : List ℕ)
    (contents : List (List ℕ)) : List LedgerEntry :=
  contents.foldl (ledgerAppend H genesis) []

/-- The same chain, built front-to-back; `buildChain_eq_chainFrom`
identifies the two. -/
def chainFrom (H : List ℕ → List ℕ) : List ℕ → List (List ℕ) → List LedgerEntry
  | _, [] => []
  | prev, c :: cs => ⟨c, prev, H (prev ++ c)⟩ :: chainFrom H (H (prev ++ c)) cs

/-- The running hash after absorbing a list of contents. -/
def hashFold (H : List ℕ → List ℕ) : List ℕ → List (List ℕ) → List ℕ
  | prev, [] => prev
  | prev, c :: cs => hashFold H (H (prev ++ c)) cs

/-- Modelled from the spec: `verify` recomputes hashes entry-by-entry
from genesis and compares to the stored values (both the link to the
predecessor and the recomputed `currentHash`). -/
def verifyFrom (H : List ℕ → List ℕ) : List ℕ → List LedgerEntry → Bool
  | _, [] => true
  | prev, e :: rest =>
      (e.prevHash == prev) && (e.currentHash == H (prev ++ e.content))
        && verifyFrom H e.currentHash rest

def AuditLog.verify (H : List ℕ → List ℕ) (genesis : List ℕ)
    (chain : List LedgerEntry) : Bool :=
  verifyFrom H genesis chain

/-- A single stored byte changed to a different value. -/
def ByteFlip (l l2 : List ℕ) : Prop :=
  ∃ i b, ∃ h : i < l.length, l.get ⟨i, h⟩ ≠ b ∧ l2 = l.set i b

/-- A ledger entry with exactly one stored byte mutated, in whichever of
its three stored columns. -/
def ByteMutated (e e2 : LedgerEntry) : Prop :=
  (ByteFlip e.content e2.content ∧ e2.prevHash = e.prevHash ∧ e2.currentHash = e.currentHash)
  ∨ (e2.content = e.content ∧ ByteFlip e.prevHash e2.prevHash ∧ e2.currentHash = e.currentHash)
  ∨ (e2.content = e.content ∧ e2.prevHash = e.prevHash ∧ ByteFlip e.currentHash e2.currentHash)

/-- A concrete injective hash for witnesses. -/
def H0 : List ℕ → List ℕ := fun l => 0 :: l

/-! ### Sanity examples (concrete evaluations of the embedded code) -/

example :
    PolicyEvaluator.evaluate intentsYaml ⟨"READ_PII", some (mkRat 23 25), "staging", []⟩
      = ⟨DecisionKind.ALLOW, "Policy requirements met"⟩ := by decide

example :
    PolicyEvaluator.evaluate intentsYaml ⟨"SEND_EXTERNAL_REQUEST", some (mkRat 22 25), "production", []⟩
      = ⟨DecisionKind.DENY, "Confidence too low"⟩ := by decide

example : globMatch "READ.EXPERIMENTAL.*".data "READ.EXPERIMENTAL.FOO".data = true := by decide
example : globMatch "WRITE.*".data "WRITE.DB".data = true := by decide
example : globMatch "WRITE.*".data "FOO.BAR".data = false := by decide

example :
    DLPScanner.scanSSN "SSN: 123-45-6789".data
      = [⟨"ssn", 5, 16, "12*******89".data⟩] := by decide

example :
    EnhancedDLPScanner.entropyScan (fun _ => true) "key ABCDEFGHIJKLMNOPQRST end".data
      = [⟨"high_entropy_token", "HIGH", 20, "ABCD...QRST".data⟩] := by decide

example :
    (run cfg0 (initFleet ["a1"])
        [ Command.applyDecision ⟨"a1", "i1", DecisionKind.DENY, RiskLevel.MEDIUM⟩
        , Command.applyDecision ⟨"a1", "i2", DecisionKind.DENY, RiskLevel.HIGH⟩ ]).agents
      = [⟨"a1", 60, 6, Mode.REDUCED, AgentStatus.ACTIVE, some "i2"⟩] := by decide

/-! ### Arithmetic bridge lemmas for the executable trust operations -/

theorem ratSub_eq (a b : ℚ) : ratSub a b = a - b := by
  unfold ratSub
  rw [Rat.mkRat_eq_div]
  push_cast
  conv_rhs => rw [← Rat.num_div_den a, ← Rat.num_div_den b]
  have ha : ((a.den : ℚ)) ≠ 0 := by positivity
  have hb : ((b.den : ℚ)) ≠ 0 := by positivity
  field_simp
  ring

theorem clampTrust_nonneg (t : ℚ) : 0 ≤ clampTrust t := by
  unfold clampTrust
  split_ifs with h1 h2
  · exact le_refl 0
  · norm_num
  · exact le_of_not_lt h1

theorem clampTrust_le_100 (t : ℚ) : clampTrust t ≤ 100 := by
  unfold clampTrust
  split_ifs with h1 h2
  · norm_num
  · exact le_refl 100
  · exact le_of_not_lt h2

theorem clampTrust_le {x y : ℚ} (h0 : 0 ≤ x) (hle : y ≤ x) : clampTrust y ≤ x := by
  unfold clampTrust
  split_ifs with h1 h2
  · exact h0
  · linarith
  · exact hle

theorem levelOf_floor (t : ℚ) : ⌊mkRat t.num (10 * t.den)⌋ = ⌊t / 10⌋ := by
  rw [Rat.mkRat_eq_div]
  push_cast
  congr 1
  conv_rhs => rw [← Rat.num_div_den t]
  have ht : ((t.den : ℚ)) ≠ 0 := by positivity
  field_simp
  exact Or.inl (by ring)

theorem levelOf_cast {t : ℚ} (h : 0 ≤ t) : (levelOf t : ℤ) = ⌊t / 10⌋ := by
  unfold levelOf
  rw [levelOf_floor]
  refine Int.toNat_of_nonneg ?_
  have h10 : (0 : ℚ) ≤ t / 10 := by positivity
  exact Int.le_floor.mpr (by exact_mod_cast h10)

theorem levelOf_eq_zero_iff (t : ℚ) : levelOf t = 0 ↔ t < 10 := by
  unfold levelOf
  rw [levelOf_floor, Int.toNat_eq_zero]
  constructor
  · intro h
    by_contra hlt
    have h10 : (1 : ℚ) ≤ t / 10 := by
      rw [le_div_iff₀ (by norm_num : (0:ℚ) < 10)]
      linarith [le_of_not_lt hlt]
    have := Int.le_floor.mpr (by exact_mod_cast h10 : ((1:ℤ):ℚ) ≤ t / 10)
    omega
  · intro h
    have h10 : t / 10 < 1 := (div_lt_one (by norm_num : (0:ℚ) < 10)).mpr h
    have := Int.floor_lt.mpr (by exact_mod_cast h10 : t / 10 < ((1:ℤ):ℚ))
    omega

theorem modeOf_full_iff (l : ℕ) : modeOf l = Mode.FULL_ACCESS ↔ 8 ≤ l := by
  unfold modeOf
  split_ifs with h1 h2 <;> simp <;> omega

theorem modeOf_reduced_iff (l : ℕ) : modeOf l = Mode.REDUCED ↔ 1 ≤ l ∧ l ≤ 7 := by
  unfold modeOf
  split_ifs with h1 h2 <;> simp <;> omega

theorem modeOf_isolated_iff (l : ℕ) : modeOf l = Mode.ISOLATED ↔ l = 0 := by
  unfold modeOf
  split_ifs with h1 h2 <;> simp <;> omega

/-! ### Claims C1, C2, C3, C10 about the policy evaluators -/

/-- C1 (amended): for an intent name matching no rule (neither exactly nor
by namespace/wildcard), `PolicyEvaluator.evaluate` returns DENY with a
reason naming the unknown intent in every environment, production and
non-production alike; `PolicyEvaluatorV2.evaluate` returns ESCALATE when
the environment is staging or dev and DENY (with the fixed reason
"Unknown intent in production", which does not name the intent) otherwise;
in no case does either evaluator return ALLOW for an unknown intent. -/
theorem unknown_intent_decisions :
    (∀ (t : Taxonomy) (ctx : EvalContext), findIntentDef t ctx.intentName = none →
      PolicyEvaluator.evaluate t ctx = ⟨DecisionKind.DENY, "Unknown intent: " ++ ctx.intentName⟩)
  ∧ (∀ (rules : List RuleV2) (evalIntent : RuleV2 → Decision) (name env : String),
      findExactIntent rules name = none → findNamespaceMatch rules name = none →
      PolicyEvaluatorV2.evaluate rules evalIntent name env =
        if env == "staging" || env == "dev" then
          ⟨DecisionKind.ESCALATE, "Unknown intent in non-production, escalating for review"⟩
        else ⟨DecisionKind.DENY, "Unknown intent in production"⟩) := by
  constructor
  · intro t ctx h
    simp only [PolicyEvaluator.evaluate, h]
  · intro rules evalIntent name env h1 h2
    simp only [PolicyEvaluatorV2.evaluate, h1, h2]

/-- Witness for C1: both unknown-intent branches at concrete inputs. -/
theorem unknown_intent_decisions_witness :
    PolicyEvaluator.evaluate intentsYaml ⟨"FOO", some (mkRat 19 20), "production", []⟩
      = ⟨DecisionKind.DENY, "Unknown intent: FOO"⟩
  ∧ PolicyEvaluatorV2.evaluate intentsYamlV2 (fun _ => ⟨DecisionKind.ALLOW, ""⟩) "FOO.BAR" "production"
      = ⟨DecisionKind.DENY, "Unknown intent in production"⟩ := by
  refine ⟨unknown_intent_decisions.1 intentsYaml ⟨"FOO", some (mkRat 19 20), "production", []⟩ (by decide), ?_⟩
  have h := unknown_intent_decisions.2 intentsYamlV2 (fun _ => ⟨DecisionKind.ALLOW, ""⟩)
    "FOO.BAR" "production" (by decide) (by decide)
  simpa using h

/-- Counterexample to C1 as stated: in the non-production environment
"staging", `PolicyEvaluator.evaluate` answers DENY for the unknown intent
"FOO", not ESCALATE as the claim requires; and the V2 production DENY
carries the fixed reason "Unknown intent in production", which does not
name the unknown intent "FOO.BAR". -/
theorem unknown_intent_claim_counterexample :
    PolicyEvaluator.evaluate intentsYaml ⟨"FOO", some (mkRat 19 20), "staging", []⟩
      = ⟨DecisionKind.DENY, "Unknown intent: FOO"⟩
  ∧ (PolicyEvaluator.evaluate intentsYaml ⟨"FOO", some (mkRat 19 20), "staging", []⟩).decision
      ≠ DecisionKind.ESCALATE
  ∧ (PolicyEvaluatorV2.evaluate intentsYamlV2 (fun _ => ⟨DecisionKind.ALLOW, ""⟩)
      "FOO.BAR" "production").reason = "Unknown intent in production" := by
  refine ⟨by decide, by decide, by decide⟩

/-- C2 (code bug): on the intent DELETE_RESOURCE with confidence 0.95 in
production — the exact input of the worked example in the evaluator's own
document, whose printed output is DENY "Critical actions blocked in
production by default" — `evaluate` returns ESCALATE, because the
human-approval check runs before the production-CRITICAL check and both
conditions hold at this input.  The most restrictive applicable outcome
(DENY) is not returned. -/
theorem delete_resource_production_escalates :
    findIntentDef intentsYaml "DELETE_RESOURCE"
      = some ⟨"DELETE_RESOURCE", ["target", "reasoning_hash"], RiskLevel.CRITICAL⟩
  ∧ (envLookup intentsYaml "production").humanApprovalRequired = true
  ∧ PolicyEvaluator.evaluate intentsYaml
      ⟨"DELETE_RESOURCE", some (mkRat 19 20), "production", ["target", "reasoning_hash"]⟩
      = ⟨DecisionKind.ESCALATE, "Human approval required for high risk in production"⟩
  ∧ DecisionKind.ESCALATE ≠ DecisionKind.DENY := by decide

/-- C3 (code bug): MODIFY_RESOURCE declares required fields
[target, action_type, change_size], yet submitting it with no fields at
all (confidence 0.95, staging) yields ALLOW: the docstring step
"2. Validate required fields" is never implemented — `evaluate` reads
only the intent name, the confidence and the environment. -/
theorem modify_resource_missing_fields_allowed :
    findIntentDef intentsYaml "MODIFY_RESOURCE"
      = some ⟨"MODIFY_RESOURCE", ["target", "action_type", "change_size"], RiskLevel.HIGH⟩
  ∧ PolicyEvaluator.evaluate intentsYaml ⟨"MODIFY_RESOURCE", some (mkRat 19 20), "staging", []⟩
      = ⟨DecisionKind.ALLOW, "Policy requirements met"⟩ := by decide

/-- C10 (amended): a context without a confidence field is evaluated with
confidence 0.0 (`.get("confidence", 0.0)`); for any rule table with a
positive confidence threshold the decision is DENY in every case — with
reason "Confidence too low" whenever the intent name is known (for
unknown names the unknown-intent DENY fires first) — and never ALLOW. -/
theorem missing_confidence_denies :
    ∀ (t : Taxonomy) (ctx : EvalContext), ctx.confidence = none →
      0 < t.constraints.confidenceThreshold →
      (PolicyEvaluator.evaluate t ctx).decision = DecisionKind.DENY
      ∧ (∀ d, findIntentDef t ctx.intentName = some d →
          PolicyEvaluator.evaluate t ctx = ⟨DecisionKind.DENY, "Confidence too low"⟩) := by
  intro t ctx hc ht
  cases hfind : findIntentDef t ctx.intentName with
  | none =>
      refine ⟨?_, ?_⟩
      · simp only [PolicyEvaluator.evaluate, hfind]
      · intro d hd
        exact absurd hd (by simp)
  | some d0 =>
      have heval : PolicyEvaluator.evaluate t ctx = ⟨DecisionKind.DENY, "Confidence too low"⟩ := by
        simp only [PolicyEvaluator.evaluate, hfind, hc, Option.getD_none]
        rw [if_pos ht]
      exact ⟨by rw [heval], fun d _ => heval⟩

/-- Witness for C10: READ_PII with no confidence in staging. -/
theorem missing_confidence_denies_witness :
    (PolicyEvaluator.evaluate intentsYaml ⟨"READ_PII", none, "staging", []⟩).decision
      = DecisionKind.DENY
  ∧ PolicyEvaluator.evaluate intentsYaml ⟨"READ_PII", none, "staging", []⟩
      = ⟨DecisionKind.DENY, "Confidence too low"⟩ := by
  have h := missing_confidence_denies intentsYaml ⟨"READ_PII", none, "staging", []⟩ rfl (by decide)
  exact ⟨h.1, h.2 ⟨"READ_PII", ["data_source", "justification"], RiskLevel.MEDIUM⟩ (by decide)⟩

/-- Counterexample to C10 as stated: a context with no confidence whose
intent name is unknown is denied with reason "Unknown intent: ...", not
with reason "Confidence too low" as the claim requires for every
confidence-free context. -/
theorem missing_confidence_reason_counterexample :
    PolicyEvaluator.evaluate intentsYaml ⟨"FOO_UNKNOWN", none, "staging", []⟩
      = ⟨DecisionKind.DENY, "Unknown intent: FOO_UNKNOWN"⟩
  ∧ ("Unknown intent: FOO_UNKNOWN" : String) ≠ "Confidence too low" := by decide

/-! ### Claim C9 about the Pattern Scanner -/

/-- A successful SSN match pins the first eleven characters: redacting
them keeps exactly the first two and last two and masks the middle with
`'*'`, and the redacted form is never the raw match. -/
theorem matchSSNAt_redact_shape (l : List Char) (h : matchSSNAt l = true) :
    (l.take 11).length = 11
    ∧ DLPScanner.redact (l.take 11)
        = (l.take 11).take 2 ++ List.replicate 7 '*' ++ (l.take 11).drop 9
    ∧ DLPScanner.redact (l.take 11) ≠ l.take 11 := by
  rw [matchSSNAt.eq_def] at h
  split at h
  case _ d1 d2 d3 h1 d4 d5 h2 d6 d7 d8 d9 rest =>
    simp only [Bool.and_eq_true, beq_iff_eq] at h
    obtain ⟨⟨⟨⟨⟨⟨⟨⟨⟨⟨⟨-, -⟩, -⟩, hh1⟩, -⟩, -⟩, hh2⟩, -⟩, -⟩, -⟩, -⟩, -⟩ := h
    subst hh1
    subst hh2
    refine ⟨by simp, by simp [DLPScanner.redact], ?_⟩
    intro heq
    simp [DLPScanner.redact, List.replicate_succ] at heq
  case _ =>
    exact absurd h (by simp)

/-- Every finding of the finditer loop records an actual SSN match at its
recorded span, and its redacted field is `_redact` of that match. -/
theorem ssnAux_sound (fuel : ℕ) :
    ∀ (prevWord : Bool) (pos : ℕ) (l : List Char) (f : Finding),
      f ∈ DLPScanner.ssnAux fuel prevWord pos l →
      f.ftype = "ssn" ∧ f.spanHi = f.spanLo + 11 ∧
      ∃ rel, f.spanLo = pos + rel ∧ matchSSNAt (l.drop rel) = true ∧
        f.redacted = DLPScanner.redact ((l.drop rel).take 11) := by
  induction fuel with
  | zero =>
      intro _ _ _ f hf
      simp [DLPScanner.ssnAux] at hf
  | succ fuel ih =>
      intro prevWord pos l f hf
      cases l with
      | nil => simp [DLPScanner.ssnAux] at hf
      | cons c cs =>
          rw [DLPScanner.ssnAux] at hf
          split at hf
          case isTrue hcond =>
            rcases List.mem_cons.mp hf with rfl | htail
            · refine ⟨rfl, rfl, 0, by simp, ?_, rfl⟩
              simpa using (Bool.and_eq_true _ _ |>.mp hcond).2
            · obtain ⟨h1, h2, rel2, hlo, hm, hr⟩ := ih true (pos + 11) ((c :: cs).drop 11) f htail
              refine ⟨h1, h2, 11 + rel2, by omega, ?_, ?_⟩
              · rwa [List.drop_drop] at hm
              · rwa [List.drop_drop] at hr
          case isFalse hcond =>
            obtain ⟨h1, h2, rel2, hlo, hm, hr⟩ := ih (isWordChar c) (pos + 1) cs f hf
            refine ⟨h1, h2, rel2 + 1, by omega, ?_, ?_⟩
            · rwa [List.drop_succ_cons]
            · rwa [List.drop_succ_cons]

/-- C9 (amended): every finding the Pattern Scanner returns carries only
a redacted form of the matched text, never the raw text: `DLPScanner`
findings redact to the first 2 and last 2 characters of the match at the
recorded span (with `'***'` for matches of length at most 4), while the
entropy findings of `EnhancedDLPScanner._entropy_scan` retain the first 4
and last 4 characters of the token; in both scanners the redacted field
always differs from the raw matched text, and no finding field holds the
raw text. -/
theorem scanner_findings_redacted :
    (∀ (l : List Char) (f : Finding), f ∈ DLPScanner.scanSSN l →
      f.ftype = "ssn" ∧ f.spanHi = f.spanLo + 11 ∧
      matchSSNAt (l.drop f.spanLo) = true ∧
      f.redacted = DLPScanner.redact ((l.drop f.spanLo).take 11) ∧
      ((l.drop f.spanLo).take 11).length = 11 ∧
      f.redacted = ((l.drop f.spanLo).take 11).take 2 ++ List.replicate 7 '*'
        ++ ((l.drop f.spanLo).take 11).drop 9 ∧
      f.redacted ≠ (l.drop f.spanLo).take 11)
  ∧ (∀ m : List Char, m.length ≤ 4 → DLPScanner.redact m = ['*', '*', '*'])
  ∧ (∀ m : List Char, 5 ≤ m.length →
      DLPScanner.redact m
        = m.take 2 ++ List.replicate (m.length - 4) '*' ++ m.drop (m.length - 2))
  ∧ (∀ (isHigh : List Char → Bool) (l : List Char) (f : EntropyFinding),
      f ∈ EnhancedDLPScanner.entropyScan isHigh l →
      ∃ tok, tok ∈ wordRuns l ∧ 20 ≤ tok.length ∧ f.tokenLength = tok.length ∧
        f.redacted = EnhancedDLPScanner.entropyRedact tok ∧
        f.redacted = tok.take 4 ++ ['.', '.', '.'] ++ tok.drop (tok.length - 4) ∧
        f.redacted ≠ tok) := by
  refine ⟨?_, ?_, ?_, ?_⟩
  · intro l f hf
    obtain ⟨h1, h2, rel, hlo, hm, hr⟩ := ssnAux_sound l.length false 0 l f hf
    have hrel : rel = f.spanLo := by omega
    subst hrel
    obtain ⟨hlen, hshape, hne⟩ := matchSSNAt_redact_shape _ hm
    exact ⟨h1, h2, hm, hr, hlen, by rw [hr, hshape], by rw [hr]; exact hne⟩
  · intro m hm
    simp [DLPScanner.redact, hm]
  · intro m hm
    rw [DLPScanner.redact, if_neg (by omega)]
  · intro isHigh l f hf
    simp only [EnhancedDLPScanner.entropyScan, List.mem_map, List.mem_filter,
      Bool.and_eq_true, decide_eq_true_eq] at hf
    obtain ⟨tok, ⟨htok, hlen, hhigh⟩, rfl⟩ := hf
    refine ⟨tok, htok, hlen, rfl, rfl, rfl, ?_⟩
    intro heq
    have hlens := congrArg List.length heq
    simp [EnhancedDLPScanner.entropyRedact] at hlens
    omega

/-- Witness for C9: the spec's own example payload `"SSN: 123-45-6789"`
run through the SSN scanner, and a 20-character token run through the
entropy scanner. -/
theorem scanner_findings_redacted_witness :
    ((⟨"ssn", 5, 16, "12*******89".data⟩ : Finding).redacted
        ≠ ("SSN: 123-45-6789".data.drop 5).take 11
      ∧ (⟨"ssn", 5, 16, "12*******89".data⟩ : Finding).redacted
          = DLPScanner.redact (("SSN: 123-45-6789".data.drop 5).take 11))
  ∧ (∃ tok, tok ∈ wordRuns "key ABCDEFGHIJKLMNOPQRST end".data ∧ 20 ≤ tok.length ∧
      (⟨"high_entropy_token", "HIGH", 20, "ABCD...QRST".data⟩ : EntropyFinding).tokenLength
        = tok.length ∧
      (⟨"high_entropy_token", "HIGH", 20, "ABCD...QRST".data⟩ : EntropyFinding).redacted
        = EnhancedDLPScanner.entropyRedact tok ∧
      (⟨"high_entropy_token", "HIGH", 20, "ABCD...QRST".data⟩ : EntropyFinding).redacted
        = tok.take 4 ++ ['.', '.', '.'] ++ tok.drop (tok.length - 4) ∧
      (⟨"high_entropy_token", "HIGH", 20, "ABCD...QRST".data⟩ : EntropyFinding).redacted
        ≠ tok) := by
  constructor
  · have h := scanner_findings_redacted.1 "SSN: 123-45-6789".data
      ⟨"ssn", 5, 16, "12*******89".data⟩ (by decide)
    exact ⟨h.2.2.2.2.2.2, h.2.2.2.1⟩
  · exact scanner_findings_redacted.2.2.2 (fun _ => true)
      "key ABCDEFGHIJKLMNOPQRST end".data
      ⟨"high_entropy_token", "HIGH", 20, "ABCD...QRST".data⟩ (by decide)

/-- Counterexample to C9 as stated: an entropy finding whose redacted
form retains the first 4 and last 4 characters of the matched token —
not only the first 2 and last 2 as the claim requires (its third
character is the token's third character, not a mask). -/
theorem entropy_redaction_counterexample :
    EnhancedDLPScanner.entropyScan (fun _ => true) "ABCDEFGHIJKLMNOPQRST".data
      = [⟨"high_entropy_token", "HIGH", 20, "ABCD...QRST".data⟩]
  ∧ "ABCD...QRST".data ≠ DLPScanner.redact "ABCDEFGHIJKLMNOPQRST".data
  ∧ DLPScanner.redact "ABCDEFGHIJKLMNOPQRST".data = "AB****************ST".data
  ∧ "ABCD...QRST".data.take 4 = "ABCDEFGHIJKLMNOPQRST".data.take 4 := by decide

/-! ### Claims C4-C7 about the Trust & Isolation tracker and governance -/

theorem applyDecisionToAgent_WF (cfg : TrustConfig) (d : GovDecision) (a : Agent)
    (h : AgentWF a) : AgentWF (applyDecisionToAgent cfg d a) := by
  unfold applyDecisionToAgent
  split
  · cases d.kind
    · exact h
    · exact ⟨clampTrust_nonneg _, clampTrust_le_100 _, rfl, rfl⟩
    · exact h
  · exact h

theorem denyTrust_le (cfg : TrustConfig) (hpen : ∀ r, 0 ≤ cfg.penalty r)
    (hamp : 0 ≤ cfg.repeatAmplification) (a : Agent) (d : GovDecision) (h0 : 0 ≤ a.trust) :
    clampTrust (if a.lastDeniedIntent == some d.intentName
      then ratSub (ratSub a.trust (cfg.penalty d.risk)) cfg.repeatAmplification
      else ratSub a.trust (cfg.penalty d.risk)) ≤ a.trust := by
  apply clampTrust_le h0
  split_ifs
  · rw [ratSub_eq, ratSub_eq]
    linarith [hpen d.risk]
  · rw [ratSub_eq]
    linarith [hpen d.risk]

theorem revoked_ite_iff (l : ℕ) (s : AgentStatus) (hs : s = AgentStatus.REVOKED → l = 0) :
    ((if l == 0 then AgentStatus.REVOKED else s) = AgentStatus.REVOKED ↔ l = 0) := by
  by_cases hl : l = 0
  · simp [hl]
  · rw [if_neg (by simpa using hl)]
    exact ⟨fun hsr => hs hsr, fun h0 => absurd h0 hl⟩

theorem applyDecisionToAgent_inv (cfg : TrustConfig) (d : GovDecision) (a : Agent)
    (hpen : ∀ r, 0 ≤ cfg.penalty r) (hamp : 0 ≤ cfg.repeatAmplification)
    (h : AgentInv a) : AgentInv (applyDecisionToAgent cfg d a) := by
  obtain ⟨hWF, hiff⟩ := h
  refine ⟨applyDecisionToAgent_WF cfg d a hWF, ?_⟩
  unfold applyDecisionToAgent
  split
  · cases d.kind
    · exact hiff
    · -- DENY: the new status is REVOKED exactly when the new level is 0
      refine revoked_ite_iff _ _ ?_
      intro hst
      have hlev0 : a.isolationLevel = 0 := hiff.mp hst
      have htr : a.trust < 10 := by
        rw [hWF.2.2.1] at hlev0
        exact (levelOf_eq_zero_iff a.trust).mp hlev0
      exact (levelOf_eq_zero_iff _).mpr
        (lt_of_le_of_lt (denyTrust_le cfg hpen hamp a d hWF.1) htr)
    · exact hiff
  · exact hiff

theorem step_preserves_WF (cfg : TrustConfig) (f : Fleet) (cmd : Command)
    (h : ∀ a ∈ f.agents, AgentWF a) : ∀ a ∈ (step cfg f cmd).agents, AgentWF a := by
  cases cmd with
  | applyDecision d =>
      intro a ha
      simp only [step, stepDecision, List.mem_map] at ha
      obtain ⟨b, hb, rfl⟩ := ha
      exact applyDecisionToAgent_WF cfg d b (h b hb)
  | purge =>
      intro a ha
      simp only [step, purgeFleet, List.mem_map] at ha
      obtain ⟨b, hb, rfl⟩ := ha
      exact ⟨by simp [purgeAgent], by simp [purgeAgent],
        by simp only [purgeAgent]; decide, by simp only [purgeAgent]; decide⟩
  | restore id =>
      intro a ha
      cases hres : restoreE f id with
      | error e =>
          simp only [step, hres] at ha
          exact h a ha
      | ok f1 =>
          simp only [step, hres] at ha
          have hfe : f1 = { agents := f.agents.map (fun b => if b.id == id then restoredAgent id else b)
                          , investigations := setCurrentInvStatus f.investigations id InvStatus.RESTORED } := by
            unfold restoreE at hres
            split at hres
            · split at hres
              · injection hres with hres
                exact hres.symm
              · exact absurd hres (by simp)
            · exact absurd hres (by simp)
          rw [hfe] at ha
          simp only [List.mem_map] at ha
          obtain ⟨b, hb, rfl⟩ := ha
          by_cases hid : (b.id == id) = true
          · rw [if_pos hid]
            exact ⟨by simp [restoredAgent], by simp [restoredAgent],
              by simp only [restoredAgent]; decide, by simp only [restoredAgent]; decide⟩
          · rw [if_neg hid]
            exact h b hb
  | confirmBreach id =>
      intro a ha
      cases hres : confirmBreachE f id with
      | error e =>
          simp only [step, hres] at ha
          exact h a ha
      | ok f1 =>
          simp only [step, hres] at ha
          have hfe : f1.agents = f.agents := by
            unfold confirmBreachE at hres
            split at hres
            · split at hres
              · injection hres with hres
                rw [← hres]
              · exact absurd hres (by simp)
            · exact absurd hres (by simp)
          rw [hfe] at ha
          exact h a ha

theorem step_preserves_inv (cfg : TrustConfig)
    (hpen : ∀ r, 0 ≤ cfg.penalty r) (hamp : 0 ≤ cfg.repeatAmplification)
    (f : Fleet) (cmd : Command)
    (h : ∀ a ∈ f.agents, AgentInv a) : ∀ a ∈ (step cfg f cmd).agents, AgentInv a := by
  cases cmd with
  | applyDecision d =>
      intro a ha
      simp only [step, stepDecision, List.mem_map] at ha
      obtain ⟨b, hb, rfl⟩ := ha
      exact applyDecisionToAgent_inv cfg d b hpen hamp (h b hb)
  | purge =>
      intro a ha
      simp only [step, purgeFleet, List.mem_map] at ha
      obtain ⟨b, hb, rfl⟩ := ha
      exact ⟨⟨by simp [purgeAgent], by simp [purgeAgent],
        by simp only [purgeAgent]; decide, by simp only [purgeAgent]; decide⟩,
        by simp [purgeAgent]⟩
  | restore id =>
      intro a ha
      cases hres : restoreE f id with
      | error e =>
          simp only [step, hres] at ha
          exact h a ha
      | ok f1 =>
          simp only [step, hres] at ha
          have hfe : f1 = { agents := f.agents.map (fun b => if b.id == id then restoredAgent id else b)
                          , investigations := setCurrentInvStatus f.investigations id InvStatus.RESTORED } := by
            unfold restoreE at hres
            split at hres
            · split at hres
              · injection hres with hres
                exact hres.symm
              · exact absurd hres (by simp)
            · exact absurd hres (by simp)
          rw [hfe] at ha
          simp only [List.mem_map] at ha
          obtain ⟨b, hb, rfl⟩ := ha
          by_cases hid : (b.id == id) = true
          · rw [if_pos hid]
            exact ⟨⟨by simp [restoredAgent], by simp [restoredAgent],
              by simp only [restoredAgent]; decide, by simp only [restoredAgent]; decide⟩,
              by simp [restoredAgent]⟩
          · rw [if_neg hid]
            exact h b hb
  | confirmBreach id =>
      intro a ha
      cases hres : confirmBreachE f id with
      | error e =>
          simp only [step, hres] at ha
          exact h a ha
      | ok f1 =>
          simp only [step, hres] at ha
          have hfe : f1.agents = f.agents := by
            unfold confirmBreachE at hres
            split at hres
            · split at hres
              · injection hres with hres
                rw [← hres]
              · exact absurd hres (by simp)
            · exact absurd hres (by simp)
          rw [hfe] at ha
          exact h a ha

theorem run_preserves (cfg : TrustConfig) (P : Fleet → Prop)
    (hstep : ∀ f cmd, P f → P (step cfg f cmd)) :
    ∀ (cmds : List Command) (f : Fleet), P f → P (run cfg f cmds) := by
  intro cmds
  induction cmds with
  | nil => intro f h; exact h
  | cons c cs ih => intro f h; exact ih (step cfg f c) (hstep f c h)

/-- C4: in every fleet state reachable from identity issuance by any
sequence of decisions and governance commands, and for any penalty
configuration, every agent's trust lies in [0, 100], its isolationLevel
equals floor(trust / 10), and its mode is FULL_ACCESS exactly when the
level is at least 8, REDUCED exactly when it is between 1 and 7, and
ISOLATED exactly when it is 0. -/
theorem trust_isolation_invariant :
    ∀ (cfg : TrustConfig) (ids : List String) (cmds : List Command) (a : Agent),
      a ∈ (run cfg (initFleet ids) cmds).agents →
      0 ≤ a.trust ∧ a.trust ≤ 100
      ∧ (a.isolationLevel : ℤ) = ⌊a.trust / 10⌋
      ∧ (a.mode = Mode.FULL_ACCESS ↔ 8 ≤ a.isolationLevel)
      ∧ (a.mode = Mode.REDUCED ↔ 1 ≤ a.isolationLevel ∧ a.isolationLevel ≤ 7)
      ∧ (a.mode = Mode.ISOLATED ↔ a.isolationLevel = 0) := by
  intro cfg ids cmds a ha
  have hWF : ∀ b ∈ (run cfg (initFleet ids) cmds).agents, AgentWF b := by
    refine run_preserves cfg (fun g => ∀ b ∈ g.agents, AgentWF b)
      (fun g cmd hg => step_preserves_WF cfg g cmd hg) cmds (initFleet ids) ?_
    intro b hb
    simp only [initFleet, List.mem_map] at hb
    obtain ⟨i, hi, rfl⟩ := hb
    exact ⟨by simp [initAgent], by simp [initAgent],
      by simp only [initAgent]; decide, by simp only [initAgent]; decide⟩
  obtain ⟨h1, h2, h3, h4⟩ := hWF a ha
  refine ⟨h1, h2, ?_, ?_, ?_, ?_⟩
  · rw [h3]
    exact levelOf_cast h1
  · rw [h4]
    exact modeOf_full_iff _
  · rw [h4]
    exact modeOf_reduced_iff _
  · rw [h4]
    exact modeOf_isolated_iff _

/-- Witness for C4: one CRITICAL DENY from a fresh agent under the
documented penalty schedule lands at trust 60, level 6, REDUCED. -/
theorem trust_isolation_invariant_witness :
    0 ≤ (⟨"a1", 60, 6, Mode.REDUCED, AgentStatus.ACTIVE, some "i1"⟩ : Agent).trust
  ∧ (⟨"a1", 60, 6, Mode.REDUCED, AgentStatus.ACTIVE, some "i1"⟩ : Agent).trust ≤ 100
  ∧ ((⟨"a1", 60, 6, Mode.REDUCED, AgentStatus.ACTIVE, some "i1"⟩ : Agent).isolationLevel : ℤ)
      = ⌊(⟨"a1", 60, 6, Mode.REDUCED, AgentStatus.ACTIVE, some "i1"⟩ : Agent).trust / 10⌋
  ∧ ((⟨"a1", 60, 6, Mode.REDUCED, AgentStatus.ACTIVE, some "i1"⟩ : Agent).mode = Mode.FULL_ACCESS
      ↔ 8 ≤ (⟨"a1", 60, 6, Mode.REDUCED, AgentStatus.ACTIVE, some "i1"⟩ : Agent).isolationLevel)
  ∧ ((⟨"a1", 60, 6, Mode.REDUCED, AgentStatus.ACTIVE, some "i1"⟩ : Agent).mode = Mode.REDUCED
      ↔ 1 ≤ (⟨"a1", 60, 6, Mode.REDUCED, AgentStatus.ACTIVE, some "i1"⟩ : Agent).isolationLevel
        ∧ (⟨"a1", 60, 6, Mode.REDUCED, AgentStatus.ACTIVE, some "i1"⟩ : Agent).isolationLevel ≤ 7)
  ∧ ((⟨"a1", 60, 6, Mode.REDUCED, AgentStatus.ACTIVE, some "i1"⟩ : Agent).mode = Mode.ISOLATED
      ↔ (⟨"a1", 60, 6, Mode.REDUCED, AgentStatus.ACTIVE, some "i1"⟩ : Agent).isolationLevel = 0) :=
  trust_isolation_invariant cfg0 ["a1"]
    [Command.applyDecision ⟨"a1", "i1", DecisionKind.DENY, RiskLevel.CRITICAL⟩]
    ⟨"a1", 60, 6, Mode.REDUCED, AgentStatus.ACTIVE, some "i1"⟩ (by decide)

/-- C5 (amended): in every reachable agent state, for any nonnegative
penalty configuration, status = REVOKED holds if and only if
isolationLevel = 0, which holds if and only if trust < 10 (not trust = 0:
a DENY can land the clamped trust strictly between 0 and 10). -/
theorem revoked_iff_level_zero :
    ∀ (cfg : TrustConfig), (∀ r, 0 ≤ cfg.penalty r) → 0 ≤ cfg.repeatAmplification →
    ∀ (ids : List String) (cmds : List Command) (a : Agent),
      a ∈ (run cfg (initFleet ids) cmds).agents →
      (a.status = AgentStatus.REVOKED ↔ a.isolationLevel = 0)
      ∧ (a.isolationLevel = 0 ↔ a.trust < 10) := by
  intro cfg hpen hamp ids cmds a ha
  have hInv : ∀ b ∈ (run cfg (initFleet ids) cmds).agents, AgentInv b := by
    refine run_preserves cfg (fun g => ∀ b ∈ g.agents, AgentInv b)
      (fun g cmd hg => step_preserves_inv cfg hpen hamp g cmd hg) cmds (initFleet ids) ?_
    intro b hb
    simp only [initFleet, List.mem_map] at hb
    obtain ⟨i, hi, rfl⟩ := hb
    exact ⟨⟨by simp [initAgent], by simp [initAgent],
      by simp only [initAgent]; decide, by simp only [initAgent]; decide⟩,
      by simp [initAgent]⟩
  obtain ⟨⟨h1, h2, h3, h4⟩, hiff⟩ := hInv a ha
  refine ⟨hiff, ?_⟩
  rw [h3]
  exact levelOf_eq_zero_iff _

/-- Witness for C5: the purged agent. -/
theorem revoked_iff_level_zero_witness :
    ((⟨"a1", 0, 0, Mode.ISOLATED, AgentStatus.REVOKED, none⟩ : Agent).status = AgentStatus.REVOKED
      ↔ (⟨"a1", 0, 0, Mode.ISOLATED, AgentStatus.REVOKED, none⟩ : Agent).isolationLevel = 0)
  ∧ ((⟨"a1", 0, 0, Mode.ISOLATED, AgentStatus.REVOKED, none⟩ : Agent).isolationLevel = 0
      ↔ (⟨"a1", 0, 0, Mode.ISOLATED, AgentStatus.REVOKED, none⟩ : Agent).trust < 10) :=
  revoked_iff_level_zero cfg0 (by decide) (by decide) ["a1"] [Command.purge]
    ⟨"a1", 0, 0, Mode.ISOLATED, AgentStatus.REVOKED, none⟩ (by decide)

/-- Counterexample to C5 as stated: with the documented penalty ranges
(DENY penalties 15, 25, 15, 40 on distinct intents), a fresh agent
reaches trust 5: the state is REVOKED with isolationLevel 0 but its
trust is 5, not 0 — so "isolationLevel = 0 ⟺ trust = 0" fails on a
reachable state. -/
theorem revoked_nonzero_trust_counterexample :
    (run cfg0 (initFleet ["a1"])
        [ Command.applyDecision ⟨"a1", "i1", DecisionKind.DENY, RiskLevel.MEDIUM⟩
        , Command.applyDecision ⟨"a1", "i2", DecisionKind.DENY, RiskLevel.HIGH⟩
        , Command.applyDecision ⟨"a1", "i3", DecisionKind.DENY, RiskLevel.MEDIUM⟩
        , Command.applyDecision ⟨"a1", "i4", DecisionKind.DENY, RiskLevel.CRITICAL⟩ ]).agents
      = [⟨"a1", 5, 0, Mode.ISOLATED, AgentStatus.REVOKED, some "i4"⟩]
  ∧ ((5 : ℚ) ≠ 0)
  ∧ (∀ r, 0 ≤ cfg0.penalty r) ∧ 0 ≤ cfg0.repeatAmplification := by
  refine ⟨by decide, by decide, by decide, by decide⟩

/-- C6: `purge()` on any fleet revokes every agent (trust 0, level 0,
REVOKED, ISOLATED) and appends exactly one new Investigation per agent,
each tagged "GLOBAL_SECURITY_INCIDENT" and opened UNDER_INVESTIGATION —
all as a single transition of the whole fleet value. -/
theorem purge_revokes_fleet :
    ∀ f : Fleet,
      (purgeFleet f).agents.length = f.agents.length
      ∧ (∀ a ∈ (purgeFleet f).agents,
          a.trust = 0 ∧ a.isolationLevel = 0
          ∧ a.status = AgentStatus.REVOKED ∧ a.mode = Mode.ISOLATED)
      ∧ (purgeFleet f).investigations = (f.agents.map purgeInv) ++ f.investigations
      ∧ (purgeFleet f).investigations.length = f.agents.length + f.investigations.length
      ∧ (f.agents.map purgeInv).map (fun i => i.agentId) = f.agents.map (fun a => a.id)
      ∧ (∀ inv ∈ f.agents.map purgeInv,
          inv.breachType = "GLOBAL_SECURITY_INCIDENT"
          ∧ inv.status = InvStatus.UNDER_INVESTIGATION
          ∧ inv.severity = "CRITICAL") := by
  intro f
  refine ⟨by simp [purgeFleet], ?_, rfl, by simp [purgeFleet], ?_, ?_⟩
  · intro a ha
    simp only [purgeFleet, List.mem_map] at ha
    obtain ⟨b, hb, rfl⟩ := ha
    exact ⟨rfl, rfl, rfl, rfl⟩
  · rw [List.map_map]
    rfl
  · intro inv hinv
    simp only [List.mem_map] at hinv
    obtain ⟨b, hb, rfl⟩ := hinv
    exact ⟨rfl, rfl, rfl⟩

/-- Witness for C6: purging a two-agent fleet. -/
theorem purge_revokes_fleet_witness :
    (purgeFleet (initFleet ["a1", "a2"])).agents.length = 2
  ∧ ((purgeAgent (initAgent "a1")).trust = 0
      ∧ (purgeAgent (initAgent "a1")).isolationLevel = 0
      ∧ (purgeAgent (initAgent "a1")).status = AgentStatus.REVOKED
      ∧ (purgeAgent (initAgent "a1")).mode = Mode.ISOLATED) := by
  have h := purge_revokes_fleet (initFleet ["a1", "a2"])
  exact ⟨h.1.trans (by decide), h.2.1 (purgeAgent (initAgent "a1")) (by decide)⟩

theorem find_setCurrentInvStatus (invs : List Investigation) (id : String) (st : InvStatus) :
    (setCurrentInvStatus invs id st).find? (fun i => i.agentId == id)
      = (invs.find? (fun i => i.agentId == id)).map (fun i => { i with status := st }) := by
  induction invs with
  | nil => rfl
  | cons i rest ih =>
      by_cases h : (i.agentId == id) = true
      · simp only [setCurrentInvStatus, if_pos h]
        simp [List.find?, h]
      · have h2 : (i.agentId == id) = false := by simpa using h
        simp only [setCurrentInvStatus, if_neg h]
        simp [List.find?, h2]
        exact ih

/-- C7: `restore(agentId)` succeeds exactly when the agent's current
Investigation is UNDER_INVESTIGATION, in which case it sets trust 100,
level 10, ACTIVE, FULL_ACCESS and marks that Investigation RESTORED;
invoked with no open Investigation it fails with IllegalTransitionError
and the fleet state is unchanged. -/
theorem restore_requires_open_investigation :
    ∀ (f : Fleet) (id : String),
      (hasOpenInvestigation f id = false →
        restoreE f id = Except.error GovernanceError.illegalTransition
        ∧ ∀ cfg : TrustConfig, step cfg f (Command.restore id) = f)
      ∧ (hasOpenInvestigation f id = true →
        ∃ f1, restoreE f id = Except.ok f1
          ∧ f1.agents.length = f.agents.length
          ∧ (∀ a ∈ f1.agents, a.id = id →
              a.trust = 100 ∧ a.isolationLevel = 10
              ∧ a.status = AgentStatus.ACTIVE ∧ a.mode = Mode.FULL_ACCESS)
          ∧ (∃ inv, currentInvestigation f id = some inv
              ∧ inv.status = InvStatus.UNDER_INVESTIGATION
              ∧ currentInvestigation f1 id = some { inv with status := InvStatus.RESTORED })) := by
  intro f id
  constructor
  · intro hcl
    have herr : restoreE f id = Except.error GovernanceError.illegalTransition := by
      cases hci : currentInvestigation f id with
      | none => simp only [restoreE, hci]
      | some inv =>
          simp only [hasOpenInvestigation, hci] at hcl
          simp only [restoreE, hci]
          rw [if_neg (by simp [hcl])]
    refine ⟨herr, ?_⟩
    intro cfg
    simp only [step, herr]
  · intro hop
    cases hci : currentInvestigation f id with
    | none =>
        simp only [hasOpenInvestigation, hci] at hop
        exact absurd hop (by simp)
    | some inv =>
        simp only [hasOpenInvestigation, hci] at hop
        have hst : inv.status = InvStatus.UNDER_INVESTIGATION := by simpa using hop
        have hok : restoreE f id = Except.ok
            { agents := f.agents.map (fun a => if a.id == id then restoredAgent id else a)
            , investigations := setCurrentInvStatus f.investigations id InvStatus.RESTORED } := by
          simp only [restoreE, hci]
          rw [if_pos hop]
        refine ⟨_, hok, by simp, ?_, inv, rfl, hst, ?_⟩
        · intro a ha hid
          simp only [List.mem_map] at ha
          obtain ⟨b, hb, rfl⟩ := ha
          by_cases hbid : (b.id == id) = true
          · simp only [hbid, if_true]
            exact ⟨rfl, rfl, rfl, rfl⟩
          · simp only [hbid, Bool.false_eq_true, if_false] at hid ⊢
            exact absurd (by simpa using hid) (by simpa using hbid)
        · show currentInvestigation
            { agents := f.agents.map (fun a => if a.id == id then restoredAgent id else a)
            , investigations := setCurrentInvStatus f.investigations id InvStatus.RESTORED } id
              = some { inv with status := InvStatus.RESTORED }
          unfold currentInvestigation
          rw [find_setCurrentInvStatus]
          unfold currentInvestigation at hci
          rw [hci]
          rfl

/-- Witness for C7: restore fails (and changes nothing) on a fresh fleet
with no investigations, and succeeds on a purged fleet. -/
theorem restore_requires_open_investigation_witness :
    (restoreE (initFleet ["a1"]) "a1" = Except.error GovernanceError.illegalTransition
      ∧ step cfg0 (initFleet ["a1"]) (Command.restore "a1") = initFleet ["a1"])
  ∧ (∃ f1, restoreE (purgeFleet (initFleet ["a1"])) "a1" = Except.ok f1
      ∧ f1.agents.length = (purgeFleet (initFleet ["a1"])).agents.length
      ∧ (∀ a ∈ f1.agents, a.id = "a1" →
          a.trust = 100 ∧ a.isolationLevel = 10
          ∧ a.status = AgentStatus.ACTIVE ∧ a.mode = Mode.FULL_ACCESS)
      ∧ (∃ inv, currentInvestigation (purgeFleet (initFleet ["a1"])) "a1" = some inv
          ∧ inv.status = InvStatus.UNDER_INVESTIGATION
          ∧ currentInvestigation f1 "a1" = some { inv with status := InvStatus.RESTORED })) := by
  constructor
  · have h := (restore_requires_open_investigation (initFleet ["a1"]) "a1").1 (by decide)
    exact ⟨h.1, h.2 cfg0⟩
  · exact (restore_requires_open_investigation (purgeFleet (initFleet ["a1"])) "a1").2 (by decide)

/-! ### Claim C8 about the Audit Ledger -/

theorem byteFlip_ne {l l2 : List ℕ} (h : ByteFlip l l2) : l2 ≠ l := by
  obtain ⟨i, b, hi, hne, rfl⟩ := h
  intro heq
  apply hne
  have h1 : (l.set i b)[i]? = l[i]? := by rw [heq]
  rw [List.getElem?_set_eq_of_lt b hi, List.getElem?_eq_getElem hi] at h1
  have h2 : b = l[i] := by injection h1
  rw [h2]
  simp [List.get_eq_getElem]

theorem lastHash_cons (g : List ℕ) (e : LedgerEntry) (rest : List LedgerEntry) :
    lastHash g (e :: rest) = lastHash e.currentHash rest := by
  cases rest with
  | nil => rfl
  | cons e2 r =>
      unfold lastHash
      rw [List.getLast?_cons_cons]
      cases hgl : (e2 :: r).getLast? with
      | none => simp at hgl
      | some e3 => rfl

theorem lastHash_chainFrom (H : List ℕ → List ℕ) (prev : List ℕ) (cs : List (List ℕ)) :
    lastHash prev (chainFrom H prev cs) = hashFold H prev cs := by
  induction cs generalizing prev with
  | nil => rfl
  | cons c cs ih =>
      simp only [chainFrom, hashFold]
      rw [lastHash_cons]
      exact ih (H (prev ++ c))

theorem chainFrom_append (H : List ℕ → List ℕ) (xs ys : List (List ℕ)) :
    ∀ prev, chainFrom H prev (xs ++ ys)
      = chainFrom H prev xs ++ chainFrom H (hashFold H prev xs) ys := by
  induction xs with
  | nil => intro prev; rfl
  | cons c cs ih =>
      intro prev
      simp only [List.cons_append, chainFrom, hashFold, List.cons_inj_right]
      exact ih (H (prev ++ c))

theorem ledgerAppend_chainFrom (H : List ℕ → List ℕ) (genesis : List ℕ)
    (cs : List (List ℕ)) (c : List ℕ) :
    ledgerAppend H genesis (chainFrom H genesis cs) c = chainFrom H genesis (cs ++ [c]) := by
  unfold ledgerAppend
  rw [chainFrom_append, lastHash_chainFrom]
  rfl

theorem buildChain_eq_chainFrom (H : List ℕ → List ℕ) (genesis : List ℕ)
    (cs : List (List ℕ)) : buildChain H genesis cs = chainFrom H genesis cs := by
  have key : ∀ (cs2 pre : List (List ℕ)),
      cs2.foldl (ledgerAppend H genesis) (chainFrom H genesis pre)
        = chainFrom H genesis (pre ++ cs2) := by
    intro cs2
    induction cs2 with
    | nil => intro pre; simp
    | cons c rest ih =>
        intro pre
        show rest.foldl (ledgerAppend H genesis)
          (ledgerAppend H genesis (chainFrom H genesis pre) c) = _
        rw [ledgerAppend_chainFrom, ih (pre ++ [c])]
        simp
  have h := key cs []
  simpa [buildChain] using h

theorem verifyFrom_chainFrom (H : List ℕ → List ℕ) (cs : List (List ℕ)) :
    ∀ prev, verifyFrom H prev (chainFrom H prev cs) = true := by
  induction cs with
  | nil => intro prev; rfl
  | cons c rest ih =>
      intro prev
      simp only [chainFrom, verifyFrom]
      simp [ih (H (prev ++ c))]

theorem verifyFrom_set_mutated (H : List ℕ → List ℕ) (hH : Function.Injective H) :
    ∀ (cs : List (List ℕ)) (prev : List ℕ) (i : ℕ) (e2 : LedgerEntry)
      (h : i < (chainFrom H prev cs).length),
      ByteMutated ((chainFrom H prev cs).get ⟨i, h⟩) e2 →
      verifyFrom H prev ((chainFrom H prev cs).set i e2) = false := by
  intro cs
  induction cs with
  | nil =>
      intro prev i e2 h
      simp [chainFrom] at h
  | cons c cs ih =>
      intro prev i e2 h hmut
      cases i with
      | zero =>
          simp only [chainFrom, List.get] at hmut
          simp only [chainFrom, List.set]
          rcases hmut with ⟨hbf, hp, hc⟩ | ⟨hcc, hbf, hc⟩ | ⟨hcc, hp, hbf⟩
          · have hne : e2.content ≠ c := byteFlip_ne hbf
            have hfail : (e2.currentHash == H (prev ++ e2.content)) = false := by
              rw [hc]
              simp only [beq_eq_false_iff_ne, ne_eq]
              intro heq
              exact hne (List.append_cancel_left (hH heq)).symm
            simp [verifyFrom, hfail]
          · have hne : e2.prevHash ≠ prev := byteFlip_ne hbf
            have hfail : (e2.prevHash == prev) = false := by simp [hne]
            simp [verifyFrom, hfail]
          · have hne : e2.currentHash ≠ H (prev ++ c) := byteFlip_ne hbf
            have hfail : (e2.currentHash == H (prev ++ e2.content)) = false := by
              rw [hcc]
              simp [hne]
            simp [verifyFrom, hfail]
      | succ j =>
          simp only [chainFrom, List.length_cons] at h
          simp only [chainFrom, List.get_cons_succ] at hmut
          simp only [chainFrom, List.set]
          have hrec := ih (H (prev ++ c)) j e2 (by omega) hmut
          simp [verifyFrom, hrec]

/-- C8 (with the hash idealized as an injective function, the
collision-freedom the scheme relies on): every appended entry's
currentHash is the hash of the preceding entry's currentHash concatenated
with the entry's canonical content serialization; verifying by
recomputation returns true on any untouched chain built by appends, and
false after mutating any single stored byte of any entry. -/
theorem ledger_hash_chain (H : List ℕ → List ℕ) (genesis : List ℕ)
    (hH : Function.Injective H) :
    (∀ (chain : List LedgerEntry) (content : List ℕ),
      (ledgerAppend H genesis chain content).getLast?
        = some ⟨content, lastHash genesis chain, H (lastHash genesis chain ++ content)⟩)
  ∧ (∀ contents : List (List ℕ),
      AuditLog.verify H genesis (buildChain H genesis contents) = true)
  ∧ (∀ (contents : List (List ℕ)) (i : ℕ) (e2 : LedgerEntry)
      (h : i < (buildChain H genesis contents).length),
      ByteMutated ((buildChain H genesis contents).get ⟨i, h⟩) e2 →
      AuditLog.verify H genesis ((buildChain H genesis contents).set i e2) = false) := by
  refine ⟨?_, ?_, ?_⟩
  · intro chain content
    unfold ledgerAppend
    simp
  · intro contents
    unfold AuditLog.verify
    rw [buildChain_eq_chainFrom]
    exact verifyFrom_chainFrom H contents genesis
  · intro contents i e2 h hmut
    unfold AuditLog.verify
    have hEq : buildChain H genesis contents = chainFrom H genesis contents :=
      buildChain_eq_chainFrom H genesis contents
    have h2 : i < (chainFrom H genesis contents).length := by
      rw [← hEq]
      exact h
    have hget : ∀ (ha : i < (buildChain H genesis contents).length)
        (hb : i < (chainFrom H genesis contents).length),
        (buildChain H genesis contents).get ⟨i, ha⟩
          = (chainFrom H genesis contents).get ⟨i, hb⟩ := by
      rw [hEq]
      intro ha hb
      rfl
    rw [hget h h2] at hmut
    rw [hEq]
    exact verifyFrom_set_mutated H hH contents genesis i e2 h2 hmut

/-- Witness for C8: a two-entry chain over the injective hash `H0`
verifies, and flipping one content byte of its first entry breaks
verification. -/
theorem ledger_hash_chain_witness :
    AuditLog.verify H0 [] (buildChain H0 [] [[1, 2], [3]]) = true
  ∧ AuditLog.verify H0 []
      ((buildChain H0 [] [[1, 2], [3]]).set 0 ⟨[9, 2], [], [0, 1, 2]⟩) = false := by
  have hinj : Function.Injective H0 := by
    intro x y hxy
    simpa [H0] using hxy
  constructor
  · exact (ledger_hash_chain H0 [] hinj).2.1 [[1, 2], [3]]
  · refine (ledger_hash_chain H0 [] hinj).2.2 [[1, 2], [3]] 0 ⟨[9, 2], [], [0, 1, 2]⟩
      (by decide) ?_
    left
    refine ⟨⟨0, 9, by decide, by decide, by decide⟩, by decide, by decide⟩

end Aegis
